import Mathlib

/-!
Verification of the utf16-ext codec layer.

The Rust crate extends byte readers and writers to UTF-16 text streams.
We embed its state machines shallowly:

* the underlying byte source is modelled, following the stated external
  interface of the design, at the granularity of the 16-bit word reads the
  crate performs: a list of scripted items, each either the two raw bytes
  of one word (in stream order) or an I/O failure of a given kind;
* `readU16` is the external service `read_u16(order)`: it consumes one
  scripted item and either composes the two bytes per the byte order or
  surfaces the scripted failure; an empty source is a clean end of stream;
* the iterators `Shorts.next`, `Chars.next` and `Lines.next` are direct
  transcriptions of the corresponding `Iterator::next` implementations in
  `read.rs`, made stateless by threading the remaining source explicitly;
* the writer side scripts the sink symmetrically: each attempted
  `write_u16` consumes one outcome (success or a failure kind), successes
  append the two bytes of the written word to an output log.

Machine integers are modelled as `Nat` with explicit bounds where they
matter (all code units are below 2 to the 16th by construction).
-/

namespace Utf16Ext

/-- Byte order of a UTF-16 stream, as in the byteorder crate: little or big endian. -/
inductive ByteOrder
| le
| be
deriving DecidableEq, Repr

/-- The kinds of I/O error relevant to the crate, mirroring the variants of
std io ErrorKind that the source inspects or constructs. -/
inductive ErrKind
| interrupted
| unexpectedEof
| invalidData
| writeZero
| other
deriving DecidableEq, Repr

/-- An I/O error value: its kind, and, when the crate wraps a
std DecodeUtf16Error into an InvalidData error, the payload of that inner
error, which is the single unpaired surrogate code unit it stores. -/
structure IoError where
  kind : ErrKind
  data : Option Nat
deriving DecidableEq, Repr

/-- One scripted event of a byte source: either the two raw bytes of the
next 16-bit word, in stream order, or an I/O failure that the next
`read_u16` call reports. -/
inductive SrcItem
| word (b0 b1 : Nat)
| err (k : ErrKind)
deriving DecidableEq, Repr

/-- A byte source, scripted at 16-bit-word granularity; the empty list is
clean end of stream. -/
abbrev Source := List SrcItem

/-- The two raw bytes, in stream order, of a 16-bit value written in the
given byte order. -/
def wordOf (t : ByteOrder) (u : Nat) : SrcItem :=
  match t with
  | .le => .word (u % 256) (u / 256)
  | .be => .word (u / 256) (u % 256)

/-- The external service `read_u16::<T>()`: consume one scripted item;
compose the two bytes per the byte order, or surface the scripted failure.
An exhausted source reads as UnexpectedEof, the clean end-of-stream signal. -/
def readU16 (t : ByteOrder) : Source → (Except ErrKind Nat) × Source
  | [] => (.error .unexpectedEof, [])
  | .word b0 b1 :: rest =>
    match t with
    | .le => (.ok (b0 + 256 * b1), rest)
    | .be => (.ok (256 * b0 + b1), rest)
  | .err k :: rest => (.error k, rest)

/-- Transcription of `impl Iterator for Shorts` in read.rs: loop reading a
word; on Interrupted retry, on UnexpectedEof yield None, otherwise yield
the word or the error. -/
def Shorts.next (t : ByteOrder) : Source → Option (Except IoError Nat) × Source
  | [] => (none, [])
  | .word b0 b1 :: rest =>
    match t with
    | .le => (some (.ok (b0 + 256 * b1)), rest)
    | .be => (some (.ok (256 * b0 + b1)), rest)
  | .err .interrupted :: rest => Shorts.next t rest
  | .err .unexpectedEof :: rest => (none, rest)
  | .err k :: rest => (some (.error ⟨k, none⟩), rest)

/-- The first item of std char decode_utf16 run on the code-unit sequence
`u :: rest`: a non-surrogate unit stands alone; a leading low surrogate is
an unpaired-surrogate error carrying `u`; a high surrogate pairs with a
following low surrogate into a supplementary scalar, and otherwise is an
unpaired-surrogate error carrying `u` alone. -/
def decodeUtf16Next (u : Nat) (rest : List Nat) : Except Nat Nat :=
  if u < 0xD800 ∨ 0xDFFF < u then .ok u
  else if 0xDC00 ≤ u then .error u
  else
    match rest with
    | [] => .error u
    | u2 :: _ =>
      if 0xDC00 ≤ u2 ∧ u2 < 0xE000 then
        .ok (0x10000 + (u - 0xD800) * 0x400 + (u2 - 0xDC00))
      else .error u

/-- Transcription of `impl Iterator for Chars` in read.rs (the iterator
behind `utf16_chars`): read one word directly via `read_u16` (EOF yields
None, other errors are yielded as is); if it does not stand alone as a
scalar, read a second word the same way and decode the pair, wrapping an
unpaired-surrogate failure as an InvalidData error that carries the
payload of the std DecodeUtf16Error. -/
def Chars.next (t : ByteOrder) (src : Source) : Option (Except IoError Nat) × Source :=
  match readU16 t src with
  | (.error .unexpectedEof, rest) => (none, rest)
  | (.error k, rest) => (some (.error ⟨k, none⟩), rest)
  | (.ok first, rest) =>
    match decodeUtf16Next first [] with
    | .ok c => (some (.ok c), rest)
    | .error _ =>
      match readU16 t rest with
      | (.error .unexpectedEof, rest2) => (none, rest2)
      | (.error k, rest2) => (some (.error ⟨k, none⟩), rest2)
      | (.ok snd, rest2) =>
        match decodeUtf16Next first [snd] with
        | .ok c => (some (.ok c), rest2)
        | .error u => (some (.error ⟨.invalidData, some u⟩), rest2)

/-- Iterate `Chars.next` up to `fuel` times, collecting the yielded items
and stopping at the first None; returns the items and the final source. -/
def charsAll (t : ByteOrder) : Nat → Source → List (Except IoError Nat) × Source
  | 0, src => ([], src)
  | fuel + 1, src =>
    match Chars.next t src with
    | (none, rest) => ([], rest)
    | (some r, rest) =>
      let p := charsAll t fuel rest
      (r :: p.1, p.2)

/-- The loop body of `read_utf16_line` in read.rs, with explicit fuel (the
callers pass one more than the source length, which the loop can never
exhaust since every iteration consumes at least one scripted item):
append decoded chars to `buf` counting them in `len`, stop after a line
feed or at end of stream, skip Interrupted errors, return others. -/
def readLineGo (t : ByteOrder) : Nat → List Nat → Nat → Source →
    Option ((Except IoError Nat) × List Nat × Source)
  | 0, _, _, _ => none
  | fuel + 1, buf, len, src =>
    match Chars.next t src with
    | (none, rest) => some (.ok len, buf, rest)
    | (some (.ok c), rest) =>
      if c = 10 then some (.ok (len + 1), buf ++ [c], rest)
      else readLineGo t fuel (buf ++ [c]) (len + 1) rest
    | (some (.error e), rest) =>
      if e.kind = .interrupted then readLineGo t fuel buf len rest
      else some (.error e, buf, rest)

/-- Transcription of `Utf16ReadExt::read_utf16_line`: run the loop with
ample fuel, appending to the given buffer. Strings are modelled as lists
of scalar values (10 is the line feed, 13 the carriage return). -/
def Utf16ReadExt.read_utf16_line (t : ByteOrder) (buf : List Nat) (src : Source) :
    Option ((Except IoError Nat) × List Nat × Source) :=
  readLineGo t (src.length + 1) buf 0 src

/-- Transcription of `impl Iterator for Lines` in read.rs: read one line
into a fresh buffer; zero chars read means None; otherwise pop a trailing
line feed and then a trailing carriage return, and yield the buffer; an
error from the line read is yielded as is. The outer Option is the fuel
artifact of the line loop and is always `some` on the inputs used here. -/
def Lines.next (t : ByteOrder) (src : Source) :
    Option (Option (Except IoError (List Nat)) × Source) :=
  match Utf16ReadExt.read_utf16_line t [] src with
  | none => none
  | some (.ok 0, _, rest) => some (none, rest)
  | some (.ok _, buf, rest) =>
    let buf :=
      if buf.getLast? = some 10 then
        let buf := buf.dropLast
        if buf.getLast? = some 13 then buf.dropLast else buf
      else buf
    some (some (.ok buf), rest)
  | some (.error e, _, rest) => some (some (.error e), rest)

/-- The auto-endian reader of auto.rs: a two-variant handle holding the
remaining source. -/
inductive AutoEndianReader
| little (inner : Source)
| big (inner : Source)
deriving DecidableEq, Repr

/-- Transcription of `AutoEndianReader::new_auto_bom`: read one word in raw
little-endian order, propagating its failure; 0xFEFF selects the Little
variant, 0xFFFE the Big variant, anything else is an InvalidData error
(the Rust code attaches the message that the first character was not a
byte-order mark). -/
def AutoEndianReader.new_auto_bom (src : Source) : Except IoError AutoEndianReader :=
  match readU16 .le src with
  | (.error k, _) => .error ⟨k, none⟩
  | (.ok bom, rest) =>
    if bom = 0xFEFF then .ok (.little rest)
    else if bom = 0xFFFE then .ok (.big rest)
    else .error ⟨.invalidData, none⟩

/-- A scripted byte sink: each attempted `write_u16` consumes one outcome
entry (`none` is success, `some k` a failure of kind `k`); an exhausted
script means every further write succeeds. Successful writes append the
two raw bytes of the word, in stream order, to the output log. -/
structure Sink where
  script : List (Option ErrKind)
  written : List SrcItem
deriving DecidableEq, Repr

/-- The external service `write_u16::<T>(u)`: consume one script entry; on
success log the two bytes of `u` in the given order, on failure log
nothing and report the scripted kind. -/
def writeU16 (t : ByteOrder) (u : Nat) (s : Sink) : (Except ErrKind Unit) × Sink :=
  match s.script with
  | [] => (.ok (), ⟨[], s.written ++ [wordOf t u]⟩)
  | none :: tail => (.ok (), ⟨tail, s.written ++ [wordOf t u]⟩)
  | some k :: tail => (.error k, ⟨tail, s.written⟩)

/-- The loop of `Utf16WriteExt::write_shorts` in write.rs: write the units
one at a time, counting successes in `len`; a failure after at least one
success returns the count as a success, a failure with no prior success
propagates the error. -/
def writeShortsGo (t : ByteOrder) (len : Nat) : List Nat → Sink → (Except IoError Nat) × Sink
  | [], s => (.ok len, s)
  | short :: rest, s =>
    match writeU16 t short s with
    | (.ok _, s1) => writeShortsGo t (len + 1) rest s1
    | (.error k, s1) => if 0 < len then (.ok len, s1) else (.error ⟨k, none⟩, s1)

/-- Transcription of `Utf16WriteExt::write_shorts`. -/
def Utf16WriteExt.write_shorts (t : ByteOrder) (buf : List Nat) (s : Sink) :
    (Except IoError Nat) × Sink :=
  writeShortsGo t 0 buf s

/-- Result of `write_utf16_string`, as in write.rs: either the whole
encoding was written, or a failure occurred and the value carries the
units the encoder had not yet handed out. -/
inductive Utf16Written
| fullyComplete
| missing (rest : List Nat)
deriving DecidableEq, Repr

/-- The while-let loop of `write_utf16_string`: pull the next unit from
the encoder and write it; on a failure return Missing with the units
still inside the encoder (the unit whose write failed has already been
pulled out and is not part of them). -/
def writeStringLoop (t : ByteOrder) : List Nat → Sink → (Except IoError Utf16Written) × Sink
  | [], s => (.ok .fullyComplete, s)
  | short :: rest, s =>
    match writeU16 t short s with
    | (.ok _, s1) => writeStringLoop t rest s1
    | (.error _, s1) => (.ok (.missing rest), s1)

/-- The UTF-16 encoding of one scalar value, as in char encode_utf16: one
unit below 2 to the 16th, otherwise a high/low surrogate pair. -/
def encodeChar (c : Nat) : List Nat :=
  if c < 0x10000 then [c]
  else [0xD800 + (c - 0x10000) / 0x400, 0xDC00 + (c - 0x10000) % 0x400]

/-- The UTF-16 encoding of a string, modelled as the list of its scalar
values, as produced by str encode_utf16. -/
def encodeUtf16 (s : List Nat) : List Nat := s.flatMap encodeChar

/-- Transcription of `Utf16WriteExt::write_utf16_string`: encode the
string; write the first unit, propagating its failure raw; then run the
while-let loop over the remaining units. -/
def Utf16WriteExt.write_utf16_string (t : ByteOrder) (s : List Nat) (sink : Sink) :
    (Except IoError Utf16Written) × Sink :=
  match encodeUtf16 s with
  | [] => (.ok .fullyComplete, sink)
  | first :: rest =>
    match writeU16 t first sink with
    | (.ok _, sink1) => writeStringLoop t rest sink1
    | (.error k, sink1) => (.error ⟨k, none⟩, sink1)

/-- A Unicode scalar value: any code point outside the surrogate range.
These are exactly the values a char of a Rust string can hold. -/
def ValidScalar (c : Nat) : Prop := c < 0xD800 ∨ (0xE000 ≤ c ∧ c < 0x110000)

instance (c : Nat) : Decidable (ValidScalar c) := by
  unfold ValidScalar; infer_instance

/-! ## Helper lemmas -/

theorem readU16_wordOf (t : ByteOrder) (u : Nat) (rest : Source) :
    readU16 t (wordOf t u :: rest) = (.ok u, rest) := by
  cases t <;> simp [readU16, wordOf] <;> omega

theorem readU16_nil (t : ByteOrder) : readU16 t [] = (.error .unexpectedEof, []) := rfl

theorem decode_ok (u : Nat) (rest : List Nat) (h : u < 0xD800 ∨ 0xDFFF < u) :
    decodeUtf16Next u rest = .ok u := by
  unfold decodeUtf16Next
  rw [if_pos h]

theorem decode_highSurrogate (u : Nat) (h1 : 0xD800 ≤ u) (h2 : u < 0xDC00) :
    decodeUtf16Next u [] = .error u := by
  unfold decodeUtf16Next
  rw [if_neg (by omega), if_neg (by omega)]

theorem decode_lowFirst (u : Nat) (rest : List Nat) (h1 : 0xDC00 ≤ u) (h2 : u ≤ 0xDFFF) :
    decodeUtf16Next u rest = .error u := by
  unfold decodeUtf16Next
  rw [if_neg (by omega), if_pos (by omega)]

theorem decode_pair_ok (u u2 : Nat) (r : List Nat) (h1 : 0xD800 ≤ u) (h2 : u < 0xDC00)
    (h3 : 0xDC00 ≤ u2) (h4 : u2 < 0xE000) :
    decodeUtf16Next u (u2 :: r) = .ok (0x10000 + (u - 0xD800) * 0x400 + (u2 - 0xDC00)) := by
  have hA : ¬(u < 0xD800 ∨ 0xDFFF < u) := by omega
  have hB : ¬(0xDC00 ≤ u) := by omega
  simp [decodeUtf16Next, hA, hB, h3, h4]

theorem decode_pair_bad (u u2 : Nat) (r : List Nat) (h1 : 0xD800 ≤ u) (h2 : u < 0xDC00)
    (h4 : ¬(0xDC00 ≤ u2 ∧ u2 < 0xE000)) :
    decodeUtf16Next u (u2 :: r) = .error u := by
  have hA : ¬(u < 0xD800 ∨ 0xDFFF < u) := by omega
  have hB : ¬(0xDC00 ≤ u) := by omega
  simp [decodeUtf16Next, hA, hB, h4]

theorem chars_bmp (t : ByteOrder) (c : Nat) (rest : Source)
    (h : c < 0xD800 ∨ 0xDFFF < c) :
    Chars.next t (wordOf t c :: rest) = (some (.ok c), rest) := by
  simp [Chars.next, readU16_wordOf t c rest, decode_ok c [] h]

theorem chars_pair (t : ByteOrder) (hi lo : Nat) (rest : Source)
    (h1 : 0xD800 ≤ hi) (h2 : hi < 0xDC00) (h3 : 0xDC00 ≤ lo) (h4 : lo < 0xE000) :
    Chars.next t (wordOf t hi :: wordOf t lo :: rest) =
      (some (.ok (0x10000 + (hi - 0xD800) * 0x400 + (lo - 0xDC00))), rest) := by
  simp [Chars.next, readU16_wordOf, decode_highSurrogate _ h1 h2,
        decode_pair_ok _ _ _ h1 h2 h3 h4]

theorem shorts_never_interrupted (t : ByteOrder) :
    ∀ src e rest, Shorts.next t src = (some (.error e), rest) → e.kind ≠ .interrupted := by
  intro src
  induction src with
  | nil => intro e rest h; simp [Shorts.next] at h
  | cons i s ih =>
    intro e rest h
    cases i with
    | word b0 b1 => cases t <;> simp [Shorts.next] at h
    | err k =>
      cases k with
      | interrupted => exact ih e rest (by simpa [Shorts.next] using h)
      | unexpectedEof => simp [Shorts.next] at h
      | invalidData =>
        simp [Shorts.next] at h
        rw [← h.1]
        decide
      | writeZero =>
        simp [Shorts.next] at h
        rw [← h.1]
        decide
      | other =>
        simp [Shorts.next] at h
        rw [← h.1]
        decide

/-! ## Claim theorems -/

/-- Claim C2: `new_auto_bom` reads exactly one 16-bit word in raw
little-endian order; 0xFEFF yields the Little variant, 0xFFFE the Big
variant, and any other value an invalid-byte-order-mark (InvalidData)
error; in the success cases the rest of the source is handed over intact,
so nothing beyond the probe word is consumed. -/
theorem new_auto_bom_spec (b0 b1 : Nat) (rest : Source) :
    (b0 + 256 * b1 = 0xFEFF →
      AutoEndianReader.new_auto_bom (.word b0 b1 :: rest) = .ok (.little rest)) ∧
    (b0 + 256 * b1 = 0xFFFE →
      AutoEndianReader.new_auto_bom (.word b0 b1 :: rest) = .ok (.big rest)) ∧
    (b0 + 256 * b1 ≠ 0xFEFF → b0 + 256 * b1 ≠ 0xFFFE →
      AutoEndianReader.new_auto_bom (.word b0 b1 :: rest) =
        .error ⟨.invalidData, none⟩) := by
  refine ⟨?_, ?_, ?_⟩
  · intro h
    simp [AutoEndianReader.new_auto_bom, readU16, h]
  · intro h
    simp [AutoEndianReader.new_auto_bom, readU16, h]
  · intro h1 h2
    simp [AutoEndianReader.new_auto_bom, readU16, h1, h2]

/-- Witness for C2: the three byte-order-mark cases at concrete probe
words 0xFEFF, 0xFFFE and 0x0041. -/
theorem new_auto_bom_spec_witness :
    AutoEndianReader.new_auto_bom [.word 0xFF 0xFE, .word 1 2] =
      .ok (.little [.word 1 2]) ∧
    AutoEndianReader.new_auto_bom [.word 0xFE 0xFF] = .ok (.big []) ∧
    AutoEndianReader.new_auto_bom [.word 0x41 0x00] = .error ⟨.invalidData, none⟩ :=
  ⟨(new_auto_bom_spec 0xFF 0xFE [.word 1 2]).1 (by decide),
   (new_auto_bom_spec 0xFE 0xFF []).2.1 (by decide),
   (new_auto_bom_spec 0x41 0x00 []).2.2 (by decide) (by decide)⟩

/-- Claim C5: a stream ending right after a lone high surrogate decodes to
a clean end of stream, not an error: `Chars.next` yields None. -/
theorem chars_trailing_high_surrogate (t : ByteOrder) (first : Nat)
    (h1 : 0xD800 ≤ first) (h2 : first < 0xDC00) :
    Chars.next t [wordOf t first] = (none, []) := by
  simp [Chars.next, readU16_wordOf t first [], decode_highSurrogate first h1 h2, readU16_nil]

/-- Witness for C5 at the high surrogate 0xD83D in both byte orders. -/
theorem chars_trailing_high_surrogate_witness :
    (0xD800 : Nat) ≤ 0xD83D ∧ (0xD83D : Nat) < 0xDC00 ∧
    Chars.next .le [wordOf .le 0xD83D] = (none, []) ∧
    Chars.next .be [wordOf .be 0xD83D] = (none, []) :=
  ⟨by decide, by decide,
   chars_trailing_high_surrogate .le 0xD83D (by decide) (by decide),
   chars_trailing_high_surrogate .be 0xD83D (by decide) (by decide)⟩

/-- Counterexample for C6: the claim says the InvalidData error carries
both offending code units, but the error wraps a std DecodeUtf16Error,
which stores only the unpaired high surrogate; two streams that differ in
the invalid second unit (0x0041 versus 0x0042) yield the identical error
value, which carries only 0xD800. -/
theorem chars_invalid_pair_counterexample :
    (Chars.next .le [wordOf .le 0xD800, wordOf .le 0x41]).1 =
      (Chars.next .le [wordOf .le 0xD800, wordOf .le 0x42]).1 ∧
    (Chars.next .le [wordOf .le 0xD800, wordOf .le 0x41]).1 =
      some (.error ⟨.invalidData, some 0xD800⟩) :=
  ⟨rfl, rfl⟩

/-- Claim C6 as amended: after a high surrogate, a successfully read second
unit that is not a valid low surrogate yields an invalid-surrogate
(InvalidData) error; the error carries the offending high surrogate only,
the invalid second unit being consumed but not recorded in the error. -/
theorem chars_invalid_pair (t : ByteOrder) (first snd : Nat) (rest : Source)
    (h1 : 0xD800 ≤ first) (h2 : first < 0xDC00)
    (h4 : ¬(0xDC00 ≤ snd ∧ snd < 0xE000)) :
    Chars.next t (wordOf t first :: wordOf t snd :: rest) =
      (some (.error ⟨.invalidData, some first⟩), rest) := by
  simp [Chars.next, readU16_wordOf, decode_highSurrogate first h1 h2,
        decode_pair_bad first snd [] h1 h2 h4]

/-- Witness for C6 (amended) at the pair 0xD800, 0x0041. -/
theorem chars_invalid_pair_witness :
    Chars.next .le [wordOf .le 0xD800, wordOf .le 0x41] =
      (some (.error ⟨.invalidData, some 0xD800⟩), []) :=
  chars_invalid_pair .le 0xD800 0x41 [] (by decide) (by decide) (by decide)

/-- Claim C10: a leading lone low surrogate is not reported at once: the
iterator reads a second unit; if the stream ends cleanly there it yields
None, and otherwise it consumes the second unit and yields an
invalid-surrogate (InvalidData) error, whatever that second unit is. -/
theorem chars_lone_low_surrogate (t : ByteOrder) (first : Nat)
    (h1 : 0xDC00 ≤ first) (h2 : first ≤ 0xDFFF) :
    Chars.next t [wordOf t first] = (none, []) ∧
    ∀ snd rest, Chars.next t (wordOf t first :: wordOf t snd :: rest) =
        (some (.error ⟨.invalidData, some first⟩), rest) := by
  constructor
  · simp [Chars.next, readU16_wordOf t first [], decode_lowFirst first [] h1 h2, readU16_nil]
  · intro snd rest
    simp [Chars.next, readU16_wordOf, decode_lowFirst first [] h1 h2,
          decode_lowFirst first [snd] h1 h2]

/-- Witness for C10 at the low surrogate 0xDC00, alone and followed by
another unit. -/
theorem chars_lone_low_surrogate_witness :
    Chars.next .le [wordOf .le 0xDC00] = (none, []) ∧
    Chars.next .le [wordOf .le 0xDC00, wordOf .le 0xDC01] =
      (some (.error ⟨.invalidData, some 0xDC00⟩), []) :=
  ⟨(chars_lone_low_surrogate .le 0xDC00 (by decide) (by decide)).1,
   (chars_lone_low_surrogate .le 0xDC00 (by decide) (by decide)).2 0xDC01 []⟩

/-- Counterexample for C4: the claim says `utf16_chars` never yields an
interrupted error, but `Chars.next` calls `read_u16` directly rather than
through the retrying `Shorts` layer, so a transient interrupted failure
of the underlying read is surfaced to the consumer. -/
theorem chars_surfaces_interrupted_counterexample :
    Chars.next .le [.err .interrupted] =
      (some (.error ⟨.interrupted, none⟩), []) := rfl

/-- Claim C4 as amended: the interrupted retry lives in the word iterator
and in the line reader, not in the char iterator: `Shorts.next` never
yields an interrupted error, `Chars.next` surfaces an interrupted
failure of the underlying read as is, and the loop of `read_utf16_line`
skips interrupted errors yielded by the char iterator. -/
theorem interrupted_retry_layers (t : ByteOrder) :
    (∀ src e rest, Shorts.next t src = (some (.error e), rest) → e.kind ≠ .interrupted) ∧
    (∀ src, Chars.next t (.err .interrupted :: src) =
        (some (.error ⟨.interrupted, none⟩), src)) ∧
    (∀ fuel buf len src, readLineGo t (fuel + 1) buf len (.err .interrupted :: src) =
        readLineGo t fuel buf len src) := by
  refine ⟨shorts_never_interrupted t, fun src => rfl, fun fuel buf len src => ?_⟩
  simp [readLineGo, Chars.next, readU16]

/-- Witness for C4 (amended): the word iterator yields a non-interrupted
error on a scripted failure, the char iterator surfaces a scripted
interrupted failure, and the line loop skips it. -/
theorem interrupted_retry_layers_witness :
    (IoError.mk .other none).kind ≠ .interrupted ∧
    Chars.next .le [.err .interrupted] =
      (some (.error ⟨.interrupted, none⟩), []) ∧
    readLineGo .le 1 [] 0 [.err .interrupted] = readLineGo .le 0 [] 0 [] :=
  ⟨(interrupted_retry_layers .le).1 [.err .other] ⟨.other, none⟩ [] rfl,
   (interrupted_retry_layers .le).2.1 [],
   (interrupted_retry_layers .le).2.2 0 [] 0 []⟩

/-- Claim C9: `Shorts.next` silently retries on a scripted interrupted
failure, yields None on clean end of stream (an empty source or a
scripted UnexpectedEof), yields the word read in the configured order,
and yields any other scripted failure as an error. -/
theorem shorts_next_spec (t : ByteOrder) (src : Source) (b0 b1 : Nat) (k : ErrKind) :
    Shorts.next t (.err .interrupted :: src) = Shorts.next t src ∧
    Shorts.next t [] = (none, []) ∧
    Shorts.next t (.err .unexpectedEof :: src) = (none, src) ∧
    Shorts.next t (.word b0 b1 :: src) =
      (some (.ok (match t with | .le => b0 + 256 * b1 | .be => 256 * b0 + b1)), src) ∧
    (k ≠ .interrupted → k ≠ .unexpectedEof →
      Shorts.next t (.err k :: src) = (some (.error ⟨k, none⟩), src)) := by
  refine ⟨rfl, rfl, rfl, ?_, ?_⟩
  · cases t <;> rfl
  · intro h1 h2
    cases k with
    | interrupted => exact absurd rfl h1
    | unexpectedEof => exact absurd rfl h2
    | invalidData => rfl
    | writeZero => rfl
    | other => rfl

/-- Witness for C9: the retry, end-of-stream, word and error cases at
concrete scripted sources. -/
theorem shorts_next_spec_witness :
    Shorts.next .le [.err .interrupted, .word 65 0] = Shorts.next .le [.word 65 0] ∧
    Shorts.next .le [] = (none, []) ∧
    Shorts.next .le [.err .other] = (some (.error ⟨.other, none⟩), []) :=
  ⟨(shorts_next_spec .le [.word 65 0] 0 0 .other).1,
   (shorts_next_spec .le [] 0 0 .other).2.1,
   (shorts_next_spec .le [] 0 0 .other).2.2.2.2 (by decide) (by decide)⟩

/-- Claim C8: the line iterator splits at the line feed and normalizes a
carriage-return/line-feed pair: an input decoding to the text A CR LF B LF
yields the lines A then B and then None, and so does the unterminated
input A CR LF B, whose final line is yielded as accumulated. -/
theorem lines_crlf_split (t : ByteOrder) :
    Lines.next t ([65, 13, 10, 66, 10].map (wordOf t)) =
      some (some (.ok [65]), [66, 10].map (wordOf t)) ∧
    Lines.next t ([66, 10].map (wordOf t)) = some (some (.ok [66]), []) ∧
    Lines.next t ([65, 13, 10, 66].map (wordOf t)) =
      some (some (.ok [65]), [66].map (wordOf t)) ∧
    Lines.next t ([66].map (wordOf t)) = some (some (.ok [66]), []) ∧
    Lines.next t [] = some (none, []) := by
  cases t <;> exact ⟨rfl, rfl, rfl, rfl, rfl⟩

/-! ## Writer lemmas -/

theorem writeShortsGo_success (t : ByteOrder) :
    ∀ (buf : List Nat) (len : Nat) (w : List SrcItem),
      writeShortsGo t len buf ⟨[], w⟩ =
        (.ok (len + buf.length), ⟨[], w ++ buf.map (wordOf t)⟩) := by
  intro buf
  induction buf with
  | nil => intro len w; simp [writeShortsGo]
  | cons u rest ih =>
    intro len w
    rw [writeShortsGo, writeU16]
    simp only []
    rw [ih (len + 1) (w ++ [wordOf t u])]
    simp [List.append_assoc]
    omega

theorem writeShortsGo_partial (t : ByteOrder) (k : ErrKind) (tail : List (Option ErrKind)) :
    ∀ (m : Nat) (buf : List Nat) (len : Nat) (w : List SrcItem),
      m < buf.length → 0 < len + m →
      (writeShortsGo t len buf ⟨List.replicate m none ++ some k :: tail, w⟩).1 =
        .ok (len + m) := by
  intro m
  induction m with
  | zero =>
    intro buf len w hlen hpos
    cases buf with
    | nil => simp at hlen
    | cons u rest =>
      simp only [List.replicate, List.nil_append]
      rw [writeShortsGo, writeU16]
      simp only []
      rw [if_pos (by omega)]
      simp
  | succ m ih =>
    intro buf len w hlen hpos
    cases buf with
    | nil => simp at hlen
    | cons u rest =>
      simp only [List.replicate_succ, List.cons_append]
      rw [writeShortsGo, writeU16]
      simp only []
      rw [show len + (m + 1) = (len + 1) + m by omega]
      exact ih rest (len + 1) (w ++ [wordOf t u]) (by simpa using hlen) (by omega)

theorem writeStringLoop_success (t : ByteOrder) :
    ∀ (units : List Nat) (w : List SrcItem),
      writeStringLoop t units ⟨[], w⟩ =
        (.ok .fullyComplete, ⟨[], w ++ units.map (wordOf t)⟩) := by
  intro units
  induction units with
  | nil => intro w; simp [writeStringLoop]
  | cons u rest ih =>
    intro w
    rw [writeStringLoop, writeU16]
    simp only []
    rw [ih (w ++ [wordOf t u])]
    simp [List.append_assoc]

theorem writeStringLoop_partial (t : ByteOrder) (k : ErrKind) (tail : List (Option ErrKind)) :
    ∀ (m : Nat) (units : List Nat) (w : List SrcItem),
      m < units.length →
      (writeStringLoop t units ⟨List.replicate m none ++ some k :: tail, w⟩).1 =
        .ok (.missing (units.drop (m + 1))) := by
  intro m
  induction m with
  | zero =>
    intro units w hlen
    cases units with
    | nil => simp at hlen
    | cons u rest =>
      simp only [List.replicate, List.nil_append]
      simp [writeStringLoop, writeU16]
  | succ m ih =>
    intro units w hlen
    cases units with
    | nil => simp at hlen
    | cons u rest =>
      simp only [List.replicate_succ, List.cons_append]
      rw [writeStringLoop, writeU16]
      simp only [List.drop_succ_cons]
      exact ih rest (w ++ [wordOf t u]) (by simpa using hlen)

theorem write_utf16_string_clean (t : ByteOrder) (s : List Nat) :
    Utf16WriteExt.write_utf16_string t s ⟨[], []⟩ =
      (.ok .fullyComplete, ⟨[], (encodeUtf16 s).map (wordOf t)⟩) := by
  cases henc : encodeUtf16 s with
  | nil => simp [Utf16WriteExt.write_utf16_string, henc]
  | cons first rest =>
    simp [Utf16WriteExt.write_utf16_string, henc, writeU16, writeStringLoop_success]

/-- Claim C7: `write_shorts` writes the units in order; a failure on the
very first unit propagates the error, a failure after n successful writes
is swallowed and Ok n returned, and if every write succeeds the full
length is returned. -/
theorem write_shorts_spec (t : ByteOrder) (buf : List Nat) (k : ErrKind)
    (tail : List (Option ErrKind)) (w : List SrcItem) (n : Nat) :
    (buf ≠ [] →
      (Utf16WriteExt.write_shorts t buf ⟨some k :: tail, w⟩).1 = .error ⟨k, none⟩) ∧
    (1 ≤ n → n < buf.length →
      (Utf16WriteExt.write_shorts t buf
          ⟨List.replicate n none ++ some k :: tail, w⟩).1 = .ok n) ∧
    (Utf16WriteExt.write_shorts t buf ⟨[], w⟩).1 = .ok buf.length := by
  refine ⟨?_, ?_, ?_⟩
  · intro h
    cases buf with
    | nil => exact absurd rfl h
    | cons u rest => simp [Utf16WriteExt.write_shorts, writeShortsGo, writeU16]
  · intro h1 h2
    have := writeShortsGo_partial t k tail n buf 0 w h2 (by omega)
    simpa [Utf16WriteExt.write_shorts] using this
  · rw [Utf16WriteExt.write_shorts, writeShortsGo_success t buf 0 w]
    simp

/-- Witness for C7: a sink failing on the first write, a sink failing on
the second write, and an always-succeeding sink, on a three-unit buffer. -/
theorem write_shorts_spec_witness :
    (Utf16WriteExt.write_shorts .le [65, 66, 67] ⟨[some .other], []⟩).1 =
      .error ⟨.other, none⟩ ∧
    (Utf16WriteExt.write_shorts .le [65, 66, 67] ⟨[none, some .other], []⟩).1 = .ok 1 ∧
    (Utf16WriteExt.write_shorts .le [65, 66, 67] ⟨[], []⟩).1 = .ok 3 :=
  ⟨(write_shorts_spec .le [65, 66, 67] .other [] [] 1).1 (by decide),
   (write_shorts_spec .le [65, 66, 67] .other [] [] 1).2.1 (by decide) (by decide),
   (write_shorts_spec .le [65, 66, 67] .other [] [] 1).2.2⟩

/-- Counterexample for C3: the claim says a failure on a later unit
returns Missing with every unit not successfully written, including the
unit whose write failed; but the loop pulls the unit out of the encoder
before writing, so on the string encoding to units 65, 66, 67 with the
write of unit 66 failing, Missing carries only 67 and not 66. -/
theorem write_utf16_string_missing_counterexample :
    (Utf16WriteExt.write_utf16_string .le [65, 66, 67] ⟨[none, some .other], []⟩).1 =
      .ok (.missing [67]) ∧
    Utf16Written.missing [67] ≠ .missing [66, 67] :=
  ⟨rfl, by decide⟩

/-- Claim C3 as amended: `write_utf16_string` writes the encoded units in
sequence; a failure on the very first unit propagates the raw error; a
failure on a later unit returns Ok Missing carrying the suffix of the
encoding strictly after the failed unit (the failed unit itself has been
pulled from the encoder and is lost); full success returns
Ok FullyComplete. -/
theorem write_utf16_string_spec (t : ByteOrder) (s : List Nat) (k : ErrKind)
    (tail : List (Option ErrKind)) (n : Nat) :
    (encodeUtf16 s ≠ [] →
      (Utf16WriteExt.write_utf16_string t s ⟨some k :: tail, []⟩).1 =
        .error ⟨k, none⟩) ∧
    (n + 1 < (encodeUtf16 s).length →
      (Utf16WriteExt.write_utf16_string t s
          ⟨List.replicate (n + 1) none ++ some k :: tail, []⟩).1 =
        .ok (.missing ((encodeUtf16 s).drop (n + 2)))) ∧
    (Utf16WriteExt.write_utf16_string t s ⟨[], []⟩).1 = .ok .fullyComplete := by
  refine ⟨?_, ?_, ?_⟩
  · intro h
    cases henc : encodeUtf16 s with
    | nil => exact absurd henc h
    | cons first rest => simp [Utf16WriteExt.write_utf16_string, henc, writeU16]
  · intro h
    cases henc : encodeUtf16 s with
    | nil => rw [henc] at h; simp at h
    | cons first rest =>
      rw [henc] at h
      simp only [Utf16WriteExt.write_utf16_string, henc, List.replicate_succ,
        List.cons_append, writeU16]
      rw [List.drop_succ_cons]
      exact writeStringLoop_partial t k tail n rest [wordOf t first]
        (by simpa using h)
  · rw [write_utf16_string_clean t s]

/-- Witness for C3 (amended): the string encoding to units 65, 66, 67
against a sink failing on the first write, a sink failing on the second
write, and an always-succeeding sink. -/
theorem write_utf16_string_spec_witness :
    (Utf16WriteExt.write_utf16_string .le [65, 66, 67] ⟨[some .other], []⟩).1 =
      .error ⟨.other, none⟩ ∧
    (Utf16WriteExt.write_utf16_string .le [65, 66, 67] ⟨[none, some .other], []⟩).1 =
      .ok (.missing (List.drop 2 (encodeUtf16 [65, 66, 67]))) ∧
    (Utf16WriteExt.write_utf16_string .le [65, 66, 67] ⟨[], []⟩).1 =
      .ok .fullyComplete :=
  ⟨(write_utf16_string_spec .le [65, 66, 67] .other [] 0).1 (by decide),
   (write_utf16_string_spec .le [65, 66, 67] .other [] 0).2.1 (by decide),
   (write_utf16_string_spec .le [65, 66, 67] .other [] 0).2.2⟩

/-- Decoding the written encoding of a valid string recovers the string:
iterating the char iterator over the logged words yields exactly the
scalars of the string and then a clean end of stream. -/
theorem charsAll_decode (t : ByteOrder) :
    ∀ s : List Nat, (∀ c ∈ s, ValidScalar c) →
      charsAll t (s.length + 1) ((encodeUtf16 s).map (wordOf t)) =
        (s.map Except.ok, []) := by
  intro s
  induction s with
  | nil => intro _; rfl
  | cons c s ih =>
    intro h
    have hc : ValidScalar c := h c (by simp)
    have ih2 := ih (fun x hx => h x (by simp [hx]))
    by_cases hb : c < 0x10000
    · have hstand : c < 0xD800 ∨ 0xDFFF < c := by
        rcases hc with h1 | ⟨h1, _⟩
        · exact Or.inl h1
        · exact Or.inr (by omega)
      have hstep := chars_bmp t c ((encodeUtf16 s).map (wordOf t)) hstand
      have henc : encodeUtf16 (c :: s) = c :: encodeUtf16 s := by
        simp [encodeUtf16, encodeChar, if_pos hb]
      rw [henc]
      simp only [List.map_cons, List.length_cons]
      rw [charsAll, hstep]
      simp [ih2]
    · have hrange : 0x10000 ≤ c ∧ c < 0x110000 := by
        rcases hc with h1 | ⟨_, h2⟩
        · omega
        · exact ⟨by omega, h2⟩
      have hstep := chars_pair t (0xD800 + (c - 0x10000) / 0x400)
        (0xDC00 + (c - 0x10000) % 0x400) ((encodeUtf16 s).map (wordOf t))
        (by omega) (by omega) (by omega) (by omega)
      have hval : 0x10000 + (0xD800 + (c - 0x10000) / 0x400 - 0xD800) * 0x400 +
          (0xDC00 + (c - 0x10000) % 0x400 - 0xDC00) = c := by omega
      rw [hval] at hstep
      have henc : encodeUtf16 (c :: s) =
          (0xD800 + (c - 0x10000) / 0x400) ::
            (0xDC00 + (c - 0x10000) % 0x400) :: encodeUtf16 s := by
        simp [encodeUtf16, encodeChar, if_neg hb]
      rw [henc]
      simp only [List.map_cons, List.length_cons]
      rw [charsAll, hstep]
      simp [ih2]

/-- Claim C1: for every byte order and every string of Unicode scalar
values, writing the string with `write_utf16_string` to a sink that
accepts every write and then decoding the logged code-unit stream with
the char iterator yields exactly the scalars of the string followed by a
clean end of stream. -/
theorem utf16_roundtrip (t : ByteOrder) (s : List Nat) (h : ∀ c ∈ s, ValidScalar c) :
    (Utf16WriteExt.write_utf16_string t s ⟨[], []⟩).1 = .ok .fullyComplete ∧
    charsAll t (s.length + 1)
        (Utf16WriteExt.write_utf16_string t s ⟨[], []⟩).2.written =
      (s.map Except.ok, []) := by
  have hw := write_utf16_string_clean t s
  refine ⟨by rw [hw], ?_⟩
  rw [hw]
  exact charsAll_decode t s h

/-- Witness for C1: the string with scalars 72 and 128512 (U+1F600, which
needs a surrogate pair) round-trips in both byte orders. -/
theorem utf16_roundtrip_witness :
    (∀ c ∈ [72, 0x1F600], ValidScalar c) ∧
    ((Utf16WriteExt.write_utf16_string .le [72, 0x1F600] ⟨[], []⟩).1 =
        .ok .fullyComplete ∧
      charsAll .le 3
          (Utf16WriteExt.write_utf16_string .le [72, 0x1F600] ⟨[], []⟩).2.written =
        ([72, 0x1F600].map Except.ok, [])) ∧
    ((Utf16WriteExt.write_utf16_string .be [72, 0x1F600] ⟨[], []⟩).1 =
        .ok .fullyComplete ∧
      charsAll .be 3
          (Utf16WriteExt.write_utf16_string .be [72, 0x1F600] ⟨[], []⟩).2.written =
        ([72, 0x1F600].map Except.ok, [])) :=
  ⟨by decide, utf16_roundtrip .le [72, 0x1F600] (by decide),
   utf16_roundtrip .be [72, 0x1F600] (by decide)⟩

end Utf16Ext
